import Mathlib

set_option maxHeartbeats 1000000

/-!
Shallow embedding of the Reversi board engine in `src/boardstate.rs`
(`Turn`, `BoardState`, `new`, `count_pieces`, `cnt_reversable`,
`puttable`, `put`, `in_range`, `dx`, `dy`), together with a
specification-level description of the capture-count query, and proofs
relating the two.

Rust's `Vec<Vec<_>>` grid is embedded as `List (List _)`; the indexing
`s[i][j]` (always in range on the executed paths) is embedded with
`List.getD`, and the assignment `s[i][j] = v` with `List.set`.  The
`assert!` failures of `new` and `put` are embedded as `Option` / `Except`
error results; `put`'s error value carries the state observable at the
failure point, which — mirroring the statement order of the source,
where both asserts precede the first write — is the untouched board.
-/

inductive Turn where
  | White
  | Black
deriving DecidableEq

/-- The side opposing `t` (the source writes this inline as
`if self.turn == Turn::White { Turn::Black } else { Turn::White }`). -/
def other : Turn → Turn
  | Turn.White => Turn.Black
  | Turn.Black => Turn.White

structure BoardState where
  size : Nat
  state : List (List (Option Turn))
  turn : Turn
deriving DecidableEq

instance : Inhabited BoardState := ⟨⟨0, [], Turn.White⟩⟩

deriving instance DecidableEq for Except

def WHITE : Char := 'o'

def BLACK : Char := '#'

/-- Read `s[i][j]`, with `none` out of range (in-range on executed paths). -/
def getCell (s : List (List (Option Turn))) (i j : Nat) : Option Turn :=
  (s.getD i []).getD j none

/-- Write `s[i][j] = v` (a no-op out of range, as `List.set` is). -/
def setCell (s : List (List (Option Turn))) (i j : Nat) (v : Option Turn) :
    List (List (Option Turn)) :=
  s.set i ((s.getD i []).set j v)

/-- `BoardState::in_range`: `z >= 0 && z < n as i32`. -/
def in_range (z : Int) (n : Nat) : Bool :=
  decide (0 ≤ z) && decide (z < (n : Int))

/-- The `dx` direction table of the source. -/
def dx (n : Nat) : Int :=
  match n with
  | 0 | 1 | 2 => 1
  | 3 | 7 => 0
  | 4 | 5 | 6 => -1
  | _ => 0

/-- The `dy` direction table of the source. -/
def dy (n : Nat) : Int :=
  match n with
  | 2 | 3 | 4 => 1
  | 1 | 5 => 0
  | 0 | 6 | 7 => -1
  | _ => 0

/-- `BoardState::new`: `assert!(n != 0)` is embedded as the `none` result. -/
def new (n : Nat) (white_turn : Bool) : Option BoardState :=
  if n = 0 then none
  else
    let s0 : List (List (Option Turn)) :=
      List.replicate (2 * n) (List.replicate (2 * n) none)
    let s1 := setCell s0 (n - 1) (n - 1) (some Turn.White)
    let s2 := setCell s1 (n - 1) n (some Turn.Black)
    let s3 := setCell s2 n (n - 1) (some Turn.Black)
    let s4 := setCell s3 n n (some Turn.White)
    some { size := 2 * n, state := s4,
           turn := if white_turn then Turn.White else Turn.Black }

/-- The grid built by `new n _` (named for reuse in proofs). -/
def init_grid (n : Nat) : List (List (Option Turn)) :=
  setCell (setCell (setCell (setCell
    (List.replicate (2 * n) (List.replicate (2 * n) none))
    (n - 1) (n - 1) (some Turn.White)) (n - 1) n (some Turn.Black))
    n (n - 1) (some Turn.Black)) n n (some Turn.White)

/-- `BoardState::count_pieces`: scan the grid, counting each color. -/
def count_pieces (b : BoardState) : (Char × Nat) × (Char × Nat) :=
  let n := b.size
  let white_count :=
    ((List.range n).map (fun i =>
      ((List.range n).map (fun j =>
        if getCell b.state i j = some Turn.White then 1 else 0)).sum)).sum
  let black_count :=
    ((List.range n).map (fun i =>
      ((List.range n).map (fun j =>
        if getCell b.state i j = some Turn.Black then 1 else 0)).sum)).sum
  ((WHITE, white_count), (BLACK, black_count))

/-- The inner `for l in 1..n` walk shared by `cnt_reversable` and `put`:
starting from the cell `(x1,y1)` adjacent to the candidate cell, step
`l = 1, 2, ...` through `(x1 + l*dx k, y1 + l*dy k)`; stop with `0` at the
edge or an empty cell, stop with `l` at a disc of the mover's color,
keep going over opposing discs.  `rem` is the number of loop iterations
remaining (the source runs `l` from `1` to `n - 1`). -/
def scanLoop (s : List (List (Option Turn))) (turn : Turn) (n x1 y1 k : Nat) :
    Nat → Nat → Nat
  | _, 0 => 0
  | l, rem + 1 =>
    let nx : Int := (x1 : Int) + (l : Int) * dx k
    let ny : Int := (y1 : Int) + (l : Int) * dy k
    if in_range nx n && in_range ny n then
      match getCell s nx.toNat ny.toNat with
      | none => 0
      | some t => if t = turn then l else scanLoop s turn n x1 y1 k (l + 1) rem
    else 0

/-- The per-direction body of `cnt_reversable`: the number of discs the
side `turn` would flip in direction `k` by playing at `(i,j)`. -/
def dirCnt (s : List (List (Option Turn))) (turn : Turn) (n i j k : Nat) : Nat :=
  let nx : Int := (i : Int) + dx k
  let ny : Int := (j : Int) + dy k
  if in_range nx n && in_range ny n then
    match getCell s nx.toNat ny.toNat with
    | none => 0
    | some t =>
      if t = turn then 0 else scanLoop s turn n nx.toNat ny.toNat k 1 (n - 1)
  else 0

/-- `BoardState::cnt_reversable`: occupied cells stay `0`; an empty cell
accumulates `vec[i][j] += l` over the eight directions `k = 0..8`. -/
def cnt_reversable (b : BoardState) : List (List Nat) :=
  let n := b.size
  (List.range n).map fun i =>
    (List.range n).map fun j =>
      match getCell b.state i j with
      | some _ => 0
      | none => ((List.range 8).map (fun k => dirCnt b.state b.turn n i j k)).sum

/-- The entry `cnt_reversable()[i][j]`. -/
def cntEntry (b : BoardState) (i j : Nat) : Nat :=
  ((cnt_reversable b).getD i []).getD j 0

/-- `BoardState::puttable`: some cell has a positive capture count. -/
def puttable (b : BoardState) : Bool :=
  let n := b.size
  let vec := cnt_reversable b
  (List.range n).any fun i =>
    (List.range n).any fun j => 0 < (vec.getD i []).getD j 0

/-- The flip loop of `put` for one direction: having found the mover's
disc at step `l`, recolor the `l` discs at offsets `1..=l` from `(i,j)`. -/
def flipRun (s : List (List (Option Turn))) (turn : Turn) (i j k l : Nat) :
    List (List (Option Turn)) :=
  (List.range l).foldl (fun s2 m =>
    setCell s2 ((i : Int) + ((m + 1 : Nat) : Int) * dx k).toNat
      ((j : Int) + ((m + 1 : Nat) : Int) * dy k).toNat (some turn)) s

/-- The per-direction body of `put`: the same walk as `dirCnt`, flipping
the run (via `flipRun`) when the walk finds the mover's disc. -/
def putDir (s : List (List (Option Turn))) (turn : Turn) (n i j k : Nat) :
    List (List (Option Turn)) :=
  let nx : Int := (i : Int) + dx k
  let ny : Int := (j : Int) + dy k
  if in_range nx n && in_range ny n then
    match getCell s nx.toNat ny.toNat with
    | none => s
    | some t =>
      if t = turn then s
      else
        let l := scanLoop s turn n nx.toNat ny.toNat k 1 (n - 1)
        if l = 0 then s else flipRun s turn i j k l
  else s

/-- `BoardState::put`.  The two `assert!`s become `Except.error` carrying
the state observable at the failure point (both precede any write in the
source, so that state is the input board).  On the success path: place
the disc, flip each direction, hand the turn to the other side, and if
that side cannot move hand it back, returning `false` only when neither
side can move. -/
def put (b : BoardState) (i j : Nat) : Except BoardState (BoardState × Bool) :=
  let n := b.size
  if ¬(i < n ∧ j < n) then Except.error b
  else
    let vec := cnt_reversable b
    if ¬(0 < (vec.getD i []).getD j 0) then Except.error b
    else
      let s0 := setCell b.state i j (some b.turn)
      let s8 := (List.range 8).foldl (fun s k => putDir s b.turn n i j k) s0
      let t1 := if b.turn = Turn.White then Turn.Black else Turn.White
      let b1 : BoardState := { size := n, state := s8, turn := t1 }
      if puttable b1 then Except.ok (b1, true)
      else
        let t2 := if t1 = Turn.White then Turn.Black else Turn.White
        let b2 : BoardState := { size := n, state := s8, turn := t2 }
        if puttable b2 then Except.ok (b2, true) else Except.ok (b2, false)

/-! ## Specification-level definitions -/

/-- The grid is a `size × size` matrix. -/
def WF (b : BoardState) : Prop :=
  b.state.length = b.size ∧ ∀ r ∈ b.state, r.length = b.size

/-- Read a raw grid at signed coordinates; `none` off the board. -/
def readAt (s : List (List (Option Turn))) (n : Nat) (x y : Int) : Option Turn :=
  if in_range x n && in_range y n then getCell s x.toNat y.toNat else none

/-- Read a board at signed coordinates; `none` off the board. -/
def cellAt (b : BoardState) (x y : Int) : Option Turn :=
  readAt b.state b.size x y

/-- The row coordinate `i + m * dx k` of the `m`-th cell of the ray from
`(i, _)` in direction `k`. -/
def rayX (i k m : Nat) : Int := (i : Int) + (m : Int) * dx k

/-- The column coordinate `j + m * dy k` of the `m`-th cell of the ray
from `(_, j)` in direction `k`. -/
def rayY (j k m : Nat) : Int := (j : Int) + (m : Int) * dy k

/-- The set of grid cells flipped by playing at `(i,j)`: along each of
the 8 rays, the cells at offsets `1..dirCnt` of that direction. -/
def raySet (s : List (List (Option Turn))) (turn : Turn) (n i j : Nat) :
    Finset (Nat × Nat) :=
  (Finset.range 8).biUnion fun k =>
    (Finset.Icc 1 (dirCnt s turn n i j k)).image
      fun m => ((rayX i k m).toNat, (rayY j k m).toNat)

/-- Modelled on the spec's words: the contribution of one direction
`d` to the capture count of the empty cell `(i,j)` — the length of the
run of consecutive opposing discs starting at the adjacent cell, counted
only when the run is terminated by a disc of the side-to-move's own
color; an empty cell or the board edge terminates the run with no
contribution.  `m` below is the first offset `≥ 1` that does not hold an
opposing disc, so the run has length `m - 1`. -/
def specDirCount (b : BoardState) (i j : Nat) (d : Int × Int) : Nat :=
  match (List.range' 1 b.size).find? (fun (m : Nat) =>
      !(decide (cellAt b ((i : Int) + (m : Int) * d.1)
          ((j : Int) + (m : Int) * d.2) = some (other b.turn)))) with
  | none => 0
  | some m =>
    if cellAt b ((i : Int) + (m : Int) * d.1) ((j : Int) + (m : Int) * d.2)
        = some b.turn then m - 1 else 0

/-- The 8 unit directions: all pairs over `{-1,0,1}` except `(0,0)`
(listed in the source's `k = 0..8` order, which the spec leaves free). -/
def dirs : List (Int × Int) :=
  [(1, -1), (1, 0), (1, 1), (0, 1), (-1, 1), (-1, 0), (-1, -1), (0, -1)]

/-- Modelled on the spec's words: the capture-count matrix — `0` at
occupied cells, and at empty cells the sum of `specDirCount` over the 8
unit directions. -/
def spec_capture_matrix (b : BoardState) : List (List Nat) :=
  (List.range b.size).map fun i =>
    (List.range b.size).map fun j =>
      match getCell b.state i j with
      | some _ => 0
      | none => (dirs.map (fun d => specDirCount b i j d)).sum

/-- A side `t` has a legal move on grid `s` (of dimension `n`): some
in-range cell has a positive capture count for `t`. -/
def hasMove (s : List (List (Option Turn))) (n : Nat) (t : Turn) : Prop :=
  ∃ i j, i < n ∧ j < n ∧ 0 < cntEntry { size := n, state := s, turn := t } i j

/-- The cells of the `n × n` grid holding a disc whose color differs
between grids `s` and `s2`. -/
def changedDiscs (s s2 : List (List (Option Turn))) (n : Nat) :
    Finset (Nat × Nat) :=
  (Finset.range n ×ˢ Finset.range n).filter fun p =>
    getCell s p.1 p.2 ≠ none ∧ getCell s2 p.1 p.2 ≠ none ∧
      getCell s p.1 p.2 ≠ getCell s2 p.1 p.2

/-- A raw grid is a square `n × n` matrix. -/
def Sq (s : List (List (Option Turn))) (n : Nat) : Prop :=
  s.length = n ∧ ∀ r ∈ s, r.length = n

/-- The board produced by `new 1 true`, written out (used in concrete
instantiations below). -/
def board2 : BoardState :=
  ⟨2, [[some Turn.White, some Turn.Black], [some Turn.Black, some Turn.White]],
    Turn.White⟩

/-- The board produced by `new 4 false` — the fresh 8×8 board with Black
(the side occupying `(3,4)` and `(4,3)`) to move. -/
def board8B : BoardState := (new 4 false).getD default

/-- The board produced by `new 4 true` — the fresh 8×8 board with White
to move. -/
def board8W : BoardState := (new 4 true).getD default

/-- The board reached from `board8B` by Black playing at `(3,2)`:
the new disc at `(3,2)`, the disc at `(3,3)` flipped, White to move. -/
def board8After : BoardState :=
  ⟨8, setCell (setCell board8B.state 3 2 (some Turn.Black)) 3 3
    (some Turn.Black), Turn.White⟩

/-! ## Grid access lemmas -/

lemma getCell_eq_getElem (s : List (List (Option Turn))) (i j : Nat) :
    getCell s i j = ((s[i]?.getD [])[j]?).getD none := by
  simp [getCell, List.getD_eq_getElem?_getD]

lemma length_setCell (s : List (List (Option Turn))) (i j : Nat) (v : Option Turn) :
    (setCell s i j v).length = s.length :=
  List.length_set s i _

lemma getCell_setCell (s : List (List (Option Turn))) (i j x y : Nat) (v : Option Turn) :
    getCell (setCell s i j v) x y =
      if x = i ∧ y = j ∧ i < s.length ∧ j < (s.getD i []).length then v
      else getCell s x y := by
  simp only [getCell, setCell, List.getD_eq_getElem?_getD, List.getElem?_set]
  rcases eq_or_ne i x with rfl | hx
  · by_cases hlen : i < s.length
    · have hrow : s.getD i [] = s[i] := by
        rw [List.getD_eq_getElem?_getD, List.getElem?_eq_getElem hlen]
        rfl
      simp only [if_pos rfl, hlen, if_true, Option.getD_some, List.getElem?_set, hrow]
      rcases eq_or_ne j y with rfl | hy
      · by_cases hj : j < s[i].length
        · simp [hj, hlen, List.getD_eq_getElem?_getD, hrow]
        · simp [hj, hlen, List.getD_eq_getElem?_getD, hrow,
            List.getElem?_eq_none (Nat.le_of_not_lt hj)]
      · simp [hy, Ne.symm hy, List.getD_eq_getElem?_getD, hrow]
    · simp [hlen, List.getD_eq_getElem?_getD,
        List.getElem?_eq_none (Nat.le_of_not_lt hlen)]
  · simp [hx, Ne.symm hx, List.getD_eq_getElem?_getD]

lemma getCell_setCell_ne (s : List (List (Option Turn))) (i j : Nat) (v : Option Turn)
    (x y : Nat) (h : ¬(x = i ∧ y = j)) :
    getCell (setCell s i j v) x y = getCell s x y := by
  rw [getCell_setCell, if_neg]
  intro hc
  exact h ⟨hc.1, hc.2.1⟩

lemma getCell_setCell_eq (s : List (List (Option Turn))) (i j : Nat) (v : Option Turn)
    (hi : i < s.length) (hj : j < (s.getD i []).length) :
    getCell (setCell s i j v) i j = v := by
  rw [getCell_setCell, if_pos ⟨rfl, rfl, hi, hj⟩]

lemma Sq_setCell (s : List (List (Option Turn))) (n i j : Nat) (v : Option Turn)
    (h : Sq s n) : Sq (setCell s i j v) n := by
  obtain ⟨hl, hr⟩ := h
  refine ⟨by rw [length_setCell, hl], ?_⟩
  by_cases hi : i < s.length
  · intro r hrmem
    rcases List.mem_or_eq_of_mem_set hrmem with hmem | rfl
    · exact hr r hmem
    · rw [List.length_set]
      have hmem2 : s.getD i [] ∈ s := by
        rw [List.getD_eq_getElem?_getD, List.getElem?_eq_getElem hi, Option.getD_some]
        exact List.getElem_mem hi
      exact hr _ hmem2
  · unfold setCell
    rw [List.set_eq_of_length_le (Nat.le_of_not_lt hi)]
    exact hr

lemma getCell_oob (s : List (List (Option Turn))) (n x y : Nat) (h : Sq s n)
    (hxy : n ≤ x ∨ n ≤ y) : getCell s x y = none := by
  obtain ⟨hl, hr⟩ := h
  rcases hxy with hx | hy
  · rw [getCell_eq_getElem]
    have : s[x]? = none := List.getElem?_eq_none (by omega)
    rw [this]
    rfl
  · rw [getCell_eq_getElem]
    rcases Nat.lt_or_ge x s.length with hx | hx
    · rw [List.getElem?_eq_getElem hx, Option.getD_some]
      have : s[x].length = n := hr _ (List.getElem_mem hx)
      rw [List.getElem?_eq_none (by omega)]
      rfl
    · rw [List.getElem?_eq_none hx]
      rfl

lemma getD_row_length (s : List (List (Option Turn))) (n : Nat) (hsq : Sq s n)
    (i : Nat) (hi : i < n) : (s.getD i []).length = n := by
  obtain ⟨hl, hr⟩ := hsq
  have hil : i < s.length := by omega
  rw [List.getD_eq_getElem?_getD, List.getElem?_eq_getElem hil]
  exact hr _ (List.getElem_mem hil)

lemma getCell_setCell_sq (s : List (List (Option Turn))) (n : Nat) (hsq : Sq s n)
    (i j : Nat) (hi : i < n) (hj : j < n) (v : Option Turn) (x y : Nat) :
    getCell (setCell s i j v) x y = if x = i ∧ y = j then v else getCell s x y := by
  rw [getCell_setCell]
  have h1 : i < s.length := by rw [hsq.1]; omega
  have h2 : j < (s.getD i []).length := by rw [getD_row_length s n hsq i hi]; omega
  by_cases hxy : x = i ∧ y = j
  · rw [if_pos ⟨hxy.1, hxy.2, h1, h2⟩, if_pos hxy]
  · rw [if_neg, if_neg hxy]
    intro hc
    exact hxy ⟨hc.1, hc.2.1⟩

lemma getCell_replicate (m x y : Nat) :
    getCell (List.replicate m (List.replicate m (none : Option Turn))) x y = none := by
  rw [getCell_eq_getElem, List.getElem?_replicate]
  by_cases hx : x < m
  · rw [if_pos hx, Option.getD_some, List.getElem?_replicate]
    by_cases hy : y < m
    · rw [if_pos hy]
      rfl
    · rw [if_neg hy]
      rfl
  · rw [if_neg hx]
    rfl

lemma Sq_replicate (m : Nat) :
    Sq (List.replicate m (List.replicate m (none : Option Turn))) m := by
  constructor
  · exact List.length_replicate m _
  · intro r hr
    rw [List.eq_of_mem_replicate hr]
    exact List.length_replicate m _

lemma getD_map_range {α : Type} (f : Nat → α) (n i : Nat) (hd : α) (hi : i < n) :
    ((List.range n).map f).getD i hd = f i := by
  rw [List.getD_eq_getElem?_getD, List.getElem?_map, List.getElem?_range hi]
  rfl

lemma list_range_map_sum (f : Nat → Nat) (n : Nat) :
    ((List.range n).map f).sum = ∑ x ∈ Finset.range n, f x := by
  induction n with
  | zero => simp
  | succ m ih =>
    rw [List.range_succ, List.map_append, List.sum_append, Finset.sum_range_succ, ih]
    simp

lemma count_grid_eq_card (s : List (List (Option Turn))) (n : Nat) (t : Turn) :
    ((List.range n).map (fun i => ((List.range n).map (fun j =>
        if getCell s i j = some t then 1 else 0)).sum)).sum
      = ((Finset.range n ×ˢ Finset.range n).filter
          (fun q => getCell s q.1 q.2 = some t)).card := by
  rw [list_range_map_sum, Finset.card_filter, Finset.sum_product]
  refine Finset.sum_congr rfl fun i _ => ?_
  exact list_range_map_sum _ n

lemma count_pieces_eq_card (b : BoardState) :
    count_pieces b =
      ((WHITE, ((Finset.range b.size ×ˢ Finset.range b.size).filter
          (fun q => getCell b.state q.1 q.2 = some Turn.White)).card),
       (BLACK, ((Finset.range b.size ×ˢ Finset.range b.size).filter
          (fun q => getCell b.state q.1 q.2 = some Turn.Black)).card)) := by
  simp only [count_pieces]
  rw [count_grid_eq_card, count_grid_eq_card]

lemma new_eq (n : Nat) (hn : n ≠ 0) (wt : Bool) :
    new n wt = some ⟨2 * n, init_grid n,
      if wt then Turn.White else Turn.Black⟩ := by
  unfold new init_grid
  rw [if_neg hn]

lemma Sq_init_grid (n : Nat) : Sq (init_grid n) (2 * n) := by
  unfold init_grid
  exact Sq_setCell _ _ _ _ _ (Sq_setCell _ _ _ _ _ (Sq_setCell _ _ _ _ _
    (Sq_setCell _ _ _ _ _ (Sq_replicate (2 * n)))))

lemma init_grid_cell (n : Nat) (hn : n ≠ 0) (x y : Nat) :
    getCell (init_grid n) x y =
      if x = n ∧ y = n then some Turn.White
      else if x = n ∧ y = n - 1 then some Turn.Black
      else if x = n - 1 ∧ y = n then some Turn.Black
      else if x = n - 1 ∧ y = n - 1 then some Turn.White
      else none := by
  have hn1 : n - 1 < 2 * n := by omega
  have hn2 : n < 2 * n := by omega
  have hs0 := Sq_replicate (2 * n)
  have hs1 := Sq_setCell _ (2 * n) (n - 1) (n - 1) (some Turn.White) hs0
  have hs2 := Sq_setCell _ (2 * n) (n - 1) n (some Turn.Black) hs1
  have hs3 := Sq_setCell _ (2 * n) n (n - 1) (some Turn.Black) hs2
  unfold init_grid
  rw [getCell_setCell_sq _ (2 * n) hs3 n n hn2 hn2,
    getCell_setCell_sq _ (2 * n) hs2 n (n - 1) hn2 hn1,
    getCell_setCell_sq _ (2 * n) hs1 (n - 1) n hn1 hn2,
    getCell_setCell_sq _ (2 * n) hs0 (n - 1) (n - 1) hn1 hn1,
    getCell_replicate]

/-! ## Claim C5: the initial layout -/

/-- C5: for every `n ≥ 1` and starting side, `new` produces a board of
dimension `2n` whose four central cells are `(n-1,n-1)`, `(n,n)` (one
side) and `(n-1,n)`, `(n,n-1)` (the other side), every other cell empty,
with `side_to_move` the chosen starting side and `count_pieces`
reporting 2 discs per side. -/
theorem new_initial_layout (n : Nat) (wt : Bool) (hn : 1 ≤ n) :
    ∃ b, new n wt = some b ∧ b.size = 2 * n ∧
      b.turn = (if wt then Turn.White else Turn.Black) ∧
      getCell b.state (n - 1) (n - 1) = some Turn.White ∧
      getCell b.state n n = some Turn.White ∧
      getCell b.state (n - 1) n = some Turn.Black ∧
      getCell b.state n (n - 1) = some Turn.Black ∧
      (∀ x y, ¬(x = n - 1 ∧ y = n - 1) → ¬(x = n ∧ y = n) →
        ¬(x = n - 1 ∧ y = n) → ¬(x = n ∧ y = n - 1) →
        getCell b.state x y = none) ∧
      count_pieces b = ((WHITE, 2), (BLACK, 2)) := by
  have hn0 : n ≠ 0 := by omega
  refine ⟨_, new_eq n hn0 wt, rfl, rfl, ?_, ?_, ?_, ?_, ?_, ?_⟩
  · rw [init_grid_cell n hn0, if_neg (by omega), if_neg (by omega),
      if_neg (by omega), if_pos ⟨rfl, rfl⟩]
  · rw [init_grid_cell n hn0, if_pos ⟨rfl, rfl⟩]
  · rw [init_grid_cell n hn0, if_neg (by omega), if_neg (by omega),
      if_pos ⟨rfl, rfl⟩]
  · rw [init_grid_cell n hn0, if_neg (by omega), if_pos ⟨rfl, rfl⟩]
  · intro x y h1 h2 h3 h4
    rw [init_grid_cell n hn0, if_neg h2, if_neg h4, if_neg h3, if_neg h1]
  · rw [count_pieces_eq_card]
    have hwf : ((Finset.range (2 * n) ×ˢ Finset.range (2 * n)).filter
        (fun q => getCell (init_grid n) q.1 q.2 = some Turn.White))
        = {(n, n), (n - 1, n - 1)} := by
      apply Finset.ext
      rintro ⟨x, y⟩
      rw [Finset.mem_filter, Finset.mem_product, Finset.mem_range, Finset.mem_range,
        init_grid_cell n hn0, Finset.mem_insert, Finset.mem_singleton]
      dsimp only
      rw [Prod.mk.injEq, Prod.mk.injEq]
      constructor
      · rintro ⟨⟨hx, hy⟩, hcell⟩
        split_ifs at hcell with h1 h2 h3 h4 <;>
          first
          | omega
          | exact absurd hcell (by simp)
      · intro hmem
        rcases hmem with ⟨rfl, rfl⟩ | ⟨rfl, rfl⟩
        · exact ⟨⟨by omega, by omega⟩, by rw [if_pos ⟨rfl, rfl⟩]⟩
        · refine ⟨⟨by omega, by omega⟩, ?_⟩
          rw [if_neg (by omega), if_neg (by omega), if_neg (by omega),
            if_pos ⟨rfl, rfl⟩]
    have hbf : ((Finset.range (2 * n) ×ˢ Finset.range (2 * n)).filter
        (fun q => getCell (init_grid n) q.1 q.2 = some Turn.Black))
        = {(n, n - 1), (n - 1, n)} := by
      apply Finset.ext
      rintro ⟨x, y⟩
      rw [Finset.mem_filter, Finset.mem_product, Finset.mem_range, Finset.mem_range,
        init_grid_cell n hn0, Finset.mem_insert, Finset.mem_singleton]
      dsimp only
      rw [Prod.mk.injEq, Prod.mk.injEq]
      constructor
      · rintro ⟨⟨hx, hy⟩, hcell⟩
        split_ifs at hcell with h1 h2 h3 h4 <;>
          first
          | omega
          | exact absurd hcell (by simp)
      · intro hmem
        rcases hmem with ⟨rfl, rfl⟩ | ⟨rfl, rfl⟩
        · refine ⟨⟨by omega, by omega⟩, ?_⟩
          rw [if_neg (by omega), if_pos ⟨rfl, rfl⟩]
        · refine ⟨⟨by omega, by omega⟩, ?_⟩
          rw [if_neg (by omega), if_neg (by omega), if_pos ⟨rfl, rfl⟩]
    have hne1 : ((n, n) : Nat × Nat) ∉ ({(n - 1, n - 1)} : Finset (Nat × Nat)) := by
      simp only [Finset.mem_singleton, Prod.mk.injEq]
      omega
    have hne2 : ((n, n - 1) : Nat × Nat) ∉ ({(n - 1, n)} : Finset (Nat × Nat)) := by
      simp only [Finset.mem_singleton, Prod.mk.injEq]
      omega
    rw [hwf, hbf, Finset.card_insert_of_not_mem hne1, Finset.card_singleton,
      Finset.card_insert_of_not_mem hne2, Finset.card_singleton]

theorem new_initial_layout_witness :
    1 ≤ 2 ∧
      (∃ b, new 2 true = some b ∧ b.size = 2 * 2 ∧
        b.turn = (if true then Turn.White else Turn.Black) ∧
        getCell b.state (2 - 1) (2 - 1) = some Turn.White ∧
        getCell b.state 2 2 = some Turn.White ∧
        getCell b.state (2 - 1) 2 = some Turn.Black ∧
        getCell b.state 2 (2 - 1) = some Turn.Black ∧
        (∀ x y, ¬(x = 2 - 1 ∧ y = 2 - 1) → ¬(x = 2 ∧ y = 2) →
          ¬(x = 2 - 1 ∧ y = 2) → ¬(x = 2 ∧ y = 2 - 1) →
          getCell b.state x y = none) ∧
        count_pieces b = ((WHITE, 2), (BLACK, 2))) :=
  ⟨by decide, new_initial_layout 2 true (by decide)⟩

/-! ## Claim C9: `new` fails exactly at `n = 0` -/

/-- C9: `new (n, starting_side)` fails (assertion violation, embedded as
`none`) precisely when `n = 0`, and succeeds for every `n ≥ 1`;
construction enforces no lower bound beyond `n ≠ 0`, so `n = 1`
(dimension 2) is accepted. -/
theorem new_fails_iff_zero (n : Nat) (wt : Bool) : new n wt = none ↔ n = 0 := by
  unfold new
  by_cases h : n = 0 <;> simp [h]

/-! ## Claim C7: failing `put` leaves the board untouched -/

/-- C7: whenever `put` fails a precondition (out-of-range indices or a
zero capture count), the state observable at the failure point is
exactly the input board — both checks occur before any mutation. -/
theorem put_error_unchanged (b : BoardState) (i j : Nat) (e : BoardState)
    (h : put b i j = Except.error e) : e = b := by
  simp only [put] at h
  split_ifs at h <;> simp_all

theorem put_error_unchanged_witness :
    put ((new 1 true).getD default) 5 5 =
        Except.error ((new 1 true).getD default) ∧
      (new 1 true).getD default = (new 1 true).getD default :=
  ⟨by decide, put_error_unchanged _ 5 5 _ (by decide)⟩

/-! ## Claim C6: `put` fails iff out of range or zero capture count -/

/-- C6: `put b i j` fails if and only if `i ≥ dimension`, `j ≥ dimension`,
or the capture count at `(i,j)` is zero; equivalently, it succeeds (never
silently no-ops) if and only if `(i,j)` is in range with a positive
capture count. -/
theorem put_fails_iff (b : BoardState) (i j : Nat) :
    (put b i j = Except.error b ↔
      b.size ≤ i ∨ b.size ≤ j ∨ cntEntry b i j = 0) ∧
    ((∃ p, put b i j = Except.ok p) ↔
      i < b.size ∧ j < b.size ∧ 0 < cntEntry b i j) := by
  constructor
  · simp only [put, cntEntry]
    split_ifs <;> simp_all <;> omega
  · simp only [put, cntEntry]
    split_ifs <;> simp_all <;> omega

/-! ## Claim C10: the 2×2 board is terminal at construction -/

/-- C10: `new 1 starting_side` produces a 2×2 board with all four cells
occupied, an all-zero capture matrix, and no playable `put` call: every
`put` violates a precondition, so the game is terminal at construction. -/
lemma put_oob (b : BoardState) (i j : Nat) (h : ¬(i < b.size ∧ j < b.size)) :
    put b i j = Except.error b := by
  simp only [put]
  rw [if_pos h]

theorem new_one_terminal (wt : Bool) (b : BoardState) (h : new 1 wt = some b) :
    (∀ x y, x < 2 → y < 2 → getCell b.state x y ≠ none) ∧
      cnt_reversable b = [[0, 0], [0, 0]] ∧
      ∀ i j, put b i j = Except.error b := by
  cases wt
  case false =>
    have hb2 : new 1 false = some (⟨2,
        [[some Turn.White, some Turn.Black], [some Turn.Black, some Turn.White]],
        Turn.Black⟩ : BoardState) := by decide
    rw [hb2] at h
    injection h with h2
    subst h2
    refine ⟨?_, by decide, ?_⟩
    · intro x y hx hy
      interval_cases x <;> interval_cases y <;> decide
    · intro i j
      by_cases hij : i < 2 ∧ j < 2
      · obtain ⟨hi, hj⟩ := hij
        interval_cases i <;> interval_cases j <;> decide
      · exact put_oob _ i j (by simpa using hij)
  case true =>
    have hb2 : new 1 true = some (⟨2,
        [[some Turn.White, some Turn.Black], [some Turn.Black, some Turn.White]],
        Turn.White⟩ : BoardState) := by decide
    rw [hb2] at h
    injection h with h2
    subst h2
    refine ⟨?_, by decide, ?_⟩
    · intro x y hx hy
      interval_cases x <;> interval_cases y <;> decide
    · intro i j
      by_cases hij : i < 2 ∧ j < 2
      · obtain ⟨hi, hj⟩ := hij
        interval_cases i <;> interval_cases j <;> decide
      · exact put_oob _ i j (by simpa using hij)

theorem new_one_terminal_witness :
    new 1 true = some board2 ∧
      ((∀ x y, x < 2 → y < 2 → getCell board2.state x y ≠ none) ∧
        cnt_reversable board2 = [[0, 0], [0, 0]] ∧
        ∀ i j, put board2 i j = Except.error board2) :=
  ⟨by decide, new_one_terminal true board2 (by decide)⟩

/-! ## Claim C8: the spec's concrete flip example -/

/-- C8 counterexample: on a freshly constructed 8×8 board (`n = 4`),
cells `(3,2)` and `(4,5)` are empty (no side occupies them), and for
either choice of starting side the capture count at `(2,2)` is `0`, so
placing at `(2,2)` violates `put`'s precondition instead of succeeding. -/
theorem fresh_put22_counterexample :
    new 4 true = some board8W ∧ new 4 false = some board8B ∧
      getCell board8W.state 3 2 = none ∧ getCell board8W.state 4 5 = none ∧
      getCell board8B.state 3 2 = none ∧ getCell board8B.state 4 5 = none ∧
      cntEntry board8W 2 2 = 0 ∧ cntEntry board8B 2 2 = 0 ∧
      put board8W 2 2 = Except.error board8W ∧
      put board8B 2 2 = Except.error board8B := by
  decide

/-- C8 amended: on a freshly constructed 8×8 board with side-to-move set
to the side occupying `(3,4)` and `(4,3)` (Black), placing a disc at
`(3,2)` succeeds, flips exactly the one disc at `(3,3)`, and results in
4 discs of the mover's color and 1 of the opponent's. -/
theorem fresh_flip_example :
    new 4 false = some board8B ∧ board8B.turn = Turn.Black ∧
      getCell board8B.state 3 4 = some Turn.Black ∧
      getCell board8B.state 4 3 = some Turn.Black ∧
      cntEntry board8B 3 2 = 1 ∧
      put board8B 3 2 =
        Except.ok (⟨8,
          setCell (setCell board8B.state 3 2 (some Turn.Black)) 3 3
            (some Turn.Black),
          Turn.White⟩, true) ∧
      count_pieces ⟨8,
        setCell (setCell board8B.state 3 2 (some Turn.Black)) 3 3
          (some Turn.Black),
        Turn.White⟩ = ((WHITE, 1), (BLACK, 4)) := by
  decide

/-! ## The walk / specification correspondence -/

lemma in_range_iff (z : Int) (n : Nat) :
    in_range z n = true ↔ 0 ≤ z ∧ z < (n : Int) := by
  unfold in_range
  rw [Bool.and_eq_true, decide_eq_true_eq, decide_eq_true_eq]

lemma readAt_pos (s : List (List (Option Turn))) (n : Nat) (p q : Int)
    (h : (in_range p n && in_range q n) = true) :
    readAt s n p q = getCell s p.toNat q.toNat := by
  unfold readAt
  rw [if_pos h]

lemma readAt_neg (s : List (List (Option Turn))) (n : Nat) (p q : Int)
    (h : ¬(in_range p n && in_range q n) = true) :
    readAt s n p q = none := by
  unfold readAt
  rw [if_neg h]

lemma other_ne (t : Turn) : other t ≠ t := by
  cases t <;> decide

lemma eq_other_of_ne (t u : Turn) (h : ¬t = u) : t = other u := by
  cases t <;> cases u <;> simp_all [other]

lemma other_other (t : Turn) : other (other t) = t := by
  cases t <;> rfl

lemma scanLoop_eq_find (s : List (List (Option Turn))) (turn : Turn)
    (n x1 y1 k i j : Nat)
    (hx : (x1 : Int) = (i : Int) + dx k) (hy : (y1 : Int) = (j : Int) + dy k) :
    ∀ rem l, 1 ≤ l →
      scanLoop s turn n x1 y1 k l rem =
        (match (List.range' (l + 1) rem).find? (fun (m : Nat) =>
            !(decide (readAt s n (rayX i k m) (rayY j k m)
              = some (other turn)))) with
          | none => 0
          | some m =>
            if readAt s n (rayX i k m) (rayY j k m) = some turn then m - 1
            else 0) := by
  intro rem
  induction rem with
  | zero => intro l hl; rfl
  | succ rem ih =>
    intro l hl
    have hpos1 : rayX i k (l + 1) = (x1 : Int) + (l : Int) * dx k := by
      unfold rayX
      rw [hx]
      push_cast
      ring
    have hpos2 : rayY j k (l + 1) = (y1 : Int) + (l : Int) * dy k := by
      unfold rayY
      rw [hy]
      push_cast
      ring
    show (if in_range ((x1 : Int) + (l : Int) * dx k) n
          && in_range ((y1 : Int) + (l : Int) * dy k) n then
        match getCell s ((x1 : Int) + (l : Int) * dx k).toNat
            ((y1 : Int) + (l : Int) * dy k).toNat with
        | none => 0
        | some t => if t = turn then l else scanLoop s turn n x1 y1 k (l + 1) rem
      else 0) = _
    rw [List.range'_succ, List.find?_cons]
    by_cases hg : (in_range ((x1 : Int) + (l : Int) * dx k) n
        && in_range ((y1 : Int) + (l : Int) * dy k) n) = true
    · have hread0 := readAt_pos s n _ _ hg
      cases hcell : getCell s ((x1 : Int) + (l : Int) * dx k).toNat
          ((y1 : Int) + (l : Int) * dy k).toNat with
      | none =>
        have hray : readAt s n (rayX i k (l + 1)) (rayY j k (l + 1)) = none := by
          rw [hpos1, hpos2, hread0, hcell]
        rw [if_pos hg]
        simp [hray]
      | some t =>
        by_cases ht : t = turn
        · have hray : readAt s n (rayX i k (l + 1)) (rayY j k (l + 1))
              = some turn := by
            rw [hpos1, hpos2, hread0, hcell, ht]
          rw [if_pos hg]
          show (if t = turn then l
              else scanLoop s turn n x1 y1 k (l + 1) rem) = _
          rw [if_pos ht]
          simp [hray, Ne.symm (other_ne turn)]
        · have ht2 : t = other turn := eq_other_of_ne t turn ht
          subst ht2
          have hray : readAt s n (rayX i k (l + 1)) (rayY j k (l + 1))
              = some (other turn) := by
            rw [hpos1, hpos2, hread0, hcell]
          rw [if_pos hg]
          show (if other turn = turn then l
              else scanLoop s turn n x1 y1 k (l + 1) rem) = _
          rw [if_neg ht, ih (l + 1) (by omega)]
          simp [hray]
    · have hray : readAt s n (rayX i k (l + 1)) (rayY j k (l + 1)) = none := by
        rw [hpos1, hpos2]
        exact readAt_neg s n _ _ hg
      rw [if_neg hg]
      simp [hray]

lemma dirCnt_eq_specDirCount (b : BoardState) (i j k : Nat)
    (hi : i < b.size) (hj : j < b.size) :
    dirCnt b.state b.turn b.size i j k = specDirCount b i j (dx k, dy k) := by
  have hrw : specDirCount b i j (dx k, dy k) =
      (match (List.range' 1 b.size).find? (fun (m : Nat) =>
          !(decide (readAt b.state b.size (rayX i k m) (rayY j k m)
            = some (other b.turn)))) with
        | none => 0
        | some m =>
          if readAt b.state b.size (rayX i k m) (rayY j k m) = some b.turn
          then m - 1 else 0) := rfl
  rw [hrw]
  have hsplit : List.range' 1 b.size = 1 :: List.range' 2 (b.size - 1) := by
    have hn1 : b.size = (b.size - 1) + 1 := by omega
    conv_lhs => rw [hn1]
    rw [List.range'_succ]
  rw [hsplit, List.find?_cons]
  have h1x : rayX i k 1 = (i : Int) + dx k := by
    unfold rayX
    push_cast
    ring
  have h1y : rayY j k 1 = (j : Int) + dy k := by
    unfold rayY
    push_cast
    ring
  show (if in_range ((i : Int) + dx k) b.size
        && in_range ((j : Int) + dy k) b.size then
      match getCell b.state ((i : Int) + dx k).toNat ((j : Int) + dy k).toNat with
      | none => 0
      | some t =>
        if t = b.turn then 0
        else scanLoop b.state b.turn b.size ((i : Int) + dx k).toNat
          ((j : Int) + dy k).toNat k 1 (b.size - 1)
    else 0) = _
  by_cases hg : (in_range ((i : Int) + dx k) b.size
      && in_range ((j : Int) + dy k) b.size) = true
  · have hread0 := readAt_pos b.state b.size _ _ hg
    cases hcell : getCell b.state ((i : Int) + dx k).toNat
        ((j : Int) + dy k).toNat with
    | none =>
      have hray : readAt b.state b.size (rayX i k 1) (rayY j k 1) = none := by
        rw [h1x, h1y, hread0, hcell]
      rw [if_pos hg]
      simp [hray]
    | some t =>
      by_cases ht : t = b.turn
      · have hray : readAt b.state b.size (rayX i k 1) (rayY j k 1)
            = some b.turn := by
          rw [h1x, h1y, hread0, hcell, ht]
        rw [if_pos hg]
        show (if t = b.turn then 0
            else scanLoop b.state b.turn b.size ((i : Int) + dx k).toNat
              ((j : Int) + dy k).toNat k 1 (b.size - 1)) = _
        rw [if_pos ht]
        simp [hray, Ne.symm (other_ne b.turn)]
      · have ht2 : t = other b.turn := eq_other_of_ne t b.turn ht
        subst ht2
        have hray : readAt b.state b.size (rayX i k 1) (rayY j k 1)
            = some (other b.turn) := by
          rw [h1x, h1y, hread0, hcell]
        rw [if_pos hg]
        show (if other b.turn = b.turn then 0
            else scanLoop b.state b.turn b.size ((i : Int) + dx k).toNat
              ((j : Int) + dy k).toNat k 1 (b.size - 1)) = _
        rw [if_neg ht]
        have hg2 := hg
        rw [Bool.and_eq_true] at hg2
        have hx0 : (0 : Int) ≤ (i : Int) + dx k :=
          ((in_range_iff _ _).mp hg2.1).1
        have hy0 : (0 : Int) ≤ (j : Int) + dy k :=
          ((in_range_iff _ _).mp hg2.2).1
        rw [scanLoop_eq_find b.state b.turn b.size _ _ k i j
          (Int.toNat_of_nonneg hx0) (Int.toNat_of_nonneg hy0) (b.size - 1) 1
          le_rfl]
        simp [hray]
  · have hray : readAt b.state b.size (rayX i k 1) (rayY j k 1) = none := by
      rw [h1x, h1y]
      exact readAt_neg b.state b.size _ _ hg
    rw [if_neg hg]
    simp [hray]

/-! ## Claim C1: `cnt_reversable` matches its specification -/

/-- C1: for every board, `cnt_reversable` returns the dimension-square
matrix in which every occupied cell has value 0 and every empty cell
holds the sum, over the 8 unit directions (all pairs over `{-1,0,1}`
except `(0,0)`), of the length of the adjacent run of consecutive
opposing discs when that run is terminated by a disc of the
side-to-move's own color, and 0 for runs stopped by an empty cell or the
board edge. -/
theorem cnt_reversable_eq_spec (b : BoardState) :
    cnt_reversable b = spec_capture_matrix b := by
  simp only [cnt_reversable, spec_capture_matrix]
  refine List.map_congr_left fun i hi => ?_
  refine List.map_congr_left fun j hj => ?_
  rw [List.mem_range] at hi hj
  cases hcell : getCell b.state i j with
  | some t => rfl
  | none =>
    have h8 : List.range 8 = [0, 1, 2, 3, 4, 5, 6, 7] := rfl
    rw [h8]
    simp only [dirs, List.map_cons, List.map_nil, List.sum_cons, List.sum_nil]
    rw [dirCnt_eq_specDirCount b i j 0 hi hj, dirCnt_eq_specDirCount b i j 1 hi hj,
      dirCnt_eq_specDirCount b i j 2 hi hj, dirCnt_eq_specDirCount b i j 3 hi hj,
      dirCnt_eq_specDirCount b i j 4 hi hj, dirCnt_eq_specDirCount b i j 5 hi hj,
      dirCnt_eq_specDirCount b i j 6 hi hj, dirCnt_eq_specDirCount b i j 7 hi hj]
    rfl

/-! ## Claim C2: turn resolution after a successful `put` -/

lemma puttable_iff (b : BoardState) :
    puttable b = true ↔ ∃ i j, i < b.size ∧ j < b.size ∧ 0 < cntEntry b i j := by
  simp only [puttable, List.any_eq_true, List.mem_range, decide_eq_true_eq,
    cntEntry]
  constructor
  · rintro ⟨i, hi, j, hj, h⟩
    exact ⟨i, j, hi, hj, h⟩
  · rintro ⟨i, j, hi, hj, h⟩
    exact ⟨i, hi, j, hj, h⟩

lemma turn_swap (t : Turn) :
    (if t = Turn.White then Turn.Black else Turn.White) = other t := by
  cases t <;> rfl

lemma put_zerocnt (b : BoardState) (i j : Nat) (hij : i < b.size ∧ j < b.size)
    (hc : ¬0 < ((cnt_reversable b).getD i []).getD j 0) :
    put b i j = Except.error b := by
  simp only [put]
  rw [if_neg (not_not_intro hij), if_pos hc]

lemma put_ok_eq (b : BoardState) (i j : Nat) (hij : i < b.size ∧ j < b.size)
    (hc : 0 < ((cnt_reversable b).getD i []).getD j 0) :
    put b i j =
      (if puttable ⟨b.size,
          (List.range 8).foldl (fun s k => putDir s b.turn b.size i j k)
            (setCell b.state i j (some b.turn)), other b.turn⟩
      then Except.ok ((⟨b.size,
          (List.range 8).foldl (fun s k => putDir s b.turn b.size i j k)
            (setCell b.state i j (some b.turn)), other b.turn⟩ : BoardState),
          true)
      else if puttable ⟨b.size,
          (List.range 8).foldl (fun s k => putDir s b.turn b.size i j k)
            (setCell b.state i j (some b.turn)), b.turn⟩
      then Except.ok ((⟨b.size,
          (List.range 8).foldl (fun s k => putDir s b.turn b.size i j k)
            (setCell b.state i j (some b.turn)), b.turn⟩ : BoardState), true)
      else Except.ok ((⟨b.size,
          (List.range 8).foldl (fun s k => putDir s b.turn b.size i j k)
            (setCell b.state i j (some b.turn)), b.turn⟩ : BoardState),
          false)) := by
  simp only [put]
  rw [if_neg (not_not_intro hij), if_neg (not_not_intro hc), turn_swap b.turn,
    turn_swap (other b.turn), other_other b.turn]

/-- C2: after a successful `put`, the side to move is the opponent of
the mover when the opponent has a cell of positive capture count on the
updated grid; otherwise, when the mover has one, the turn silently
returns to the mover with result `true`; and when neither side has one,
the result is `false` with the turn left on the mover (the last side
checked). -/
theorem put_turn_resolution (b : BoardState) (i j : Nat) (b' : BoardState)
    (r : Bool) (h : put b i j = Except.ok (b', r)) :
    b'.size = b.size ∧
      (hasMove b'.state b.size (other b.turn) →
        b'.turn = other b.turn ∧ r = true) ∧
      (¬hasMove b'.state b.size (other b.turn) →
        hasMove b'.state b.size b.turn → b'.turn = b.turn ∧ r = true) ∧
      (¬hasMove b'.state b.size (other b.turn) →
        ¬hasMove b'.state b.size b.turn → b'.turn = b.turn ∧ r = false) := by
  by_cases hij : i < b.size ∧ j < b.size
  case neg =>
    rw [put_oob b i j hij] at h
    exact absurd h (by simp)
  by_cases hc : 0 < ((cnt_reversable b).getD i []).getD j 0
  case neg =>
    rw [put_zerocnt b i j hij hc] at h
    exact absurd h (by simp)
  rw [put_ok_eq b i j hij hc] at h
  by_cases hA : puttable ⟨b.size,
      (List.range 8).foldl (fun s k => putDir s b.turn b.size i j k)
        (setCell b.state i j (some b.turn)), other b.turn⟩ = true
  · rw [if_pos hA, Except.ok.injEq, Prod.mk.injEq] at h
    obtain ⟨rfl, rfl⟩ := h
    have hm := (puttable_iff _).mp hA
    exact ⟨rfl, fun _ => ⟨rfl, rfl⟩, fun hneg _ => absurd hm hneg,
      fun hneg _ => absurd hm hneg⟩
  · rw [if_neg hA] at h
    have hnm : ¬hasMove ((List.range 8).foldl
        (fun s k => putDir s b.turn b.size i j k)
        (setCell b.state i j (some b.turn))) b.size (other b.turn) :=
      fun hcm => hA ((puttable_iff _).mpr hcm)
    by_cases hB : puttable ⟨b.size,
        (List.range 8).foldl (fun s k => putDir s b.turn b.size i j k)
          (setCell b.state i j (some b.turn)), b.turn⟩ = true
    · rw [if_pos hB, Except.ok.injEq, Prod.mk.injEq] at h
      obtain ⟨rfl, rfl⟩ := h
      exact ⟨rfl, fun hmv => absurd hmv hnm, fun _ _ => ⟨rfl, rfl⟩,
        fun _ hneg => absurd ((puttable_iff _).mp hB) hneg⟩
    · rw [if_neg hB, Except.ok.injEq, Prod.mk.injEq] at h
      obtain ⟨rfl, rfl⟩ := h
      have hnm2 : ¬hasMove ((List.range 8).foldl
          (fun s k => putDir s b.turn b.size i j k)
          (setCell b.state i j (some b.turn))) b.size b.turn :=
        fun hcm => hB ((puttable_iff _).mpr hcm)
      exact ⟨rfl, fun hmv => absurd hmv hnm, fun _ hmv => absurd hmv hnm2,
        fun _ _ => ⟨rfl, rfl⟩⟩

theorem put_turn_resolution_witness :
    board8After.size = board8B.size ∧
      (hasMove board8After.state board8B.size (other board8B.turn) →
        board8After.turn = other board8B.turn ∧ true = true) ∧
      (¬hasMove board8After.state board8B.size (other board8B.turn) →
        hasMove board8After.state board8B.size board8B.turn →
        board8After.turn = board8B.turn ∧ true = true) ∧
      (¬hasMove board8After.state board8B.size (other board8B.turn) →
        ¬hasMove board8After.state board8B.size board8B.turn →
        board8After.turn = board8B.turn ∧ true = false) :=
  put_turn_resolution board8B 3 2 board8After true (by decide)

/-! ## Claims C3 and C4: what `put` does to the grid -/

lemma scanLoop_congr (s s2 : List (List (Option Turn))) (turn : Turn)
    (n x1 y1 k : Nat)
    (hagree : ∀ l2 : Nat,
      (in_range ((x1 : Int) + (l2 : Int) * dx k) n
        && in_range ((y1 : Int) + (l2 : Int) * dy k) n) = true →
      getCell s ((x1 : Int) + (l2 : Int) * dx k).toNat
          ((y1 : Int) + (l2 : Int) * dy k).toNat
        = getCell s2 ((x1 : Int) + (l2 : Int) * dx k).toNat
          ((y1 : Int) + (l2 : Int) * dy k).toNat) :
    ∀ rem l, scanLoop s turn n x1 y1 k l rem = scanLoop s2 turn n x1 y1 k l rem := by
  intro rem
  induction rem with
  | zero => intro l; rfl
  | succ rem ih =>
    intro l
    show (if in_range ((x1 : Int) + (l : Int) * dx k) n
          && in_range ((y1 : Int) + (l : Int) * dy k) n then
        match getCell s ((x1 : Int) + (l : Int) * dx k).toNat
            ((y1 : Int) + (l : Int) * dy k).toNat with
        | none => 0
        | some t => if t = turn then l else scanLoop s turn n x1 y1 k (l + 1) rem
      else 0)
      = (if in_range ((x1 : Int) + (l : Int) * dx k) n
          && in_range ((y1 : Int) + (l : Int) * dy k) n then
        match getCell s2 ((x1 : Int) + (l : Int) * dx k).toNat
            ((y1 : Int) + (l : Int) * dy k).toNat with
        | none => 0
        | some t => if t = turn then l else scanLoop s2 turn n x1 y1 k (l + 1) rem
      else 0)
    by_cases hg : (in_range ((x1 : Int) + (l : Int) * dx k) n
        && in_range ((y1 : Int) + (l : Int) * dy k) n) = true
    · rw [if_pos hg, if_pos hg, ← hagree l hg]
      cases getCell s ((x1 : Int) + (l : Int) * dx k).toNat
          ((y1 : Int) + (l : Int) * dy k).toNat with
      | none => rfl
      | some t =>
        dsimp only
        by_cases ht : t = turn
        · rw [if_pos ht, if_pos ht]
        · rw [if_neg ht, if_neg ht]
          exact ih (l + 1)
    · rw [if_neg hg, if_neg hg]

lemma dirCnt_congr (s s2 : List (List (Option Turn))) (turn : Turn)
    (n i j k : Nat)
    (hagree : ∀ m : Nat, 1 ≤ m →
      (in_range (rayX i k m) n && in_range (rayY j k m) n) = true →
      getCell s (rayX i k m).toNat (rayY j k m).toNat
        = getCell s2 (rayX i k m).toNat (rayY j k m).toNat) :
    dirCnt s turn n i j k = dirCnt s2 turn n i j k := by
  have h1x : rayX i k 1 = (i : Int) + dx k := by
    unfold rayX
    push_cast
    ring
  have h1y : rayY j k 1 = (j : Int) + dy k := by
    unfold rayY
    push_cast
    ring
  simp only [dirCnt]
  by_cases hg : (in_range ((i : Int) + dx k) n
      && in_range ((j : Int) + dy k) n) = true
  · rw [if_pos hg, if_pos hg]
    have hadj := hagree 1 le_rfl (by rw [h1x, h1y]; exact hg)
    rw [h1x, h1y] at hadj
    rw [← hadj]
    cases getCell s ((i : Int) + dx k).toNat ((j : Int) + dy k).toNat with
    | none => rfl
    | some t =>
      dsimp only
      by_cases ht : t = turn
      · rw [if_pos ht, if_pos ht]
      · rw [if_neg ht, if_neg ht]
        have hg2 := hg
        rw [Bool.and_eq_true] at hg2
        have hx0 : (0 : Int) ≤ (i : Int) + dx k :=
          ((in_range_iff _ _).mp hg2.1).1
        have hy0 : (0 : Int) ≤ (j : Int) + dy k :=
          ((in_range_iff _ _).mp hg2.2).1
        refine scanLoop_congr s s2 turn n _ _ k (fun l2 hgl => ?_) (n - 1) 1
        have hpx : ((((i : Int) + dx k).toNat : Nat) : Int) + (l2 : Int) * dx k
            = rayX i k (l2 + 1) := by
          rw [Int.toNat_of_nonneg hx0]
          unfold rayX
          push_cast
          ring
        have hpy : ((((j : Int) + dy k).toNat : Nat) : Int) + (l2 : Int) * dy k
            = rayY j k (l2 + 1) := by
          rw [Int.toNat_of_nonneg hy0]
          unfold rayY
          push_cast
          ring
        rw [hpx, hpy] at hgl ⊢
        exact hagree (l2 + 1) (by omega) hgl
  · rw [if_neg hg, if_neg hg]

lemma putDir_eq (s : List (List (Option Turn))) (turn : Turn) (n i j k : Nat) :
    putDir s turn n i j k =
      if dirCnt s turn n i j k = 0 then s
      else flipRun s turn i j k (dirCnt s turn n i j k) := by
  simp only [putDir, dirCnt]
  by_cases hg : (in_range ((i : Int) + dx k) n
      && in_range ((j : Int) + dy k) n) = true
  · rw [if_pos hg, if_pos hg]
    cases getCell s ((i : Int) + dx k).toNat ((j : Int) + dy k).toNat with
    | none => rw [if_pos rfl]
    | some t =>
      dsimp only
      by_cases ht : t = turn
      · rw [if_pos ht, if_pos ht, if_pos rfl]
      · rw [if_neg ht, if_neg ht]
  · rw [if_neg hg, if_neg hg, if_pos rfl]

lemma ray_ne_origin (i j k m : Nat) (hk : k < 8) (hm : 1 ≤ m) :
    ¬(rayX i k m = (i : Int) ∧ rayY j k m = (j : Int)) := by
  unfold rayX rayY
  interval_cases k <;> simp [dx, dy] <;> omega

lemma ray_inj (i j k m m2 : Nat) (hk : k < 8)
    (h : rayX i k m = rayX i k m2 ∧ rayY j k m = rayY j k m2) : m = m2 := by
  unfold rayX rayY at h
  interval_cases k <;> simp [dx, dy] at h <;> omega

lemma ray_disjoint (i j k k2 m m2 : Nat) (hk : k < 8) (hk2 : k2 < 8)
    (hne : k ≠ k2) (hm : 1 ≤ m) (hm2 : 1 ≤ m2) :
    ¬(rayX i k m = rayX i k2 m2 ∧ rayY j k m = rayY j k2 m2) := by
  unfold rayX rayY
  interval_cases k <;> interval_cases k2 <;> simp_all [dx, dy] <;> omega

lemma scanLoop_sound (s : List (List (Option Turn))) (turn : Turn)
    (n x1 y1 k : Nat) :
    ∀ rem l c, 1 ≤ l → scanLoop s turn n x1 y1 k l rem = c → 0 < c →
      l ≤ c ∧
      (∀ l2, l ≤ l2 → l2 < c →
        (in_range ((x1 : Int) + (l2 : Int) * dx k) n
          && in_range ((y1 : Int) + (l2 : Int) * dy k) n) = true ∧
        ∃ t, t ≠ turn ∧ getCell s ((x1 : Int) + (l2 : Int) * dx k).toNat
          ((y1 : Int) + (l2 : Int) * dy k).toNat = some t) ∧
      ((in_range ((x1 : Int) + (c : Int) * dx k) n
          && in_range ((y1 : Int) + (c : Int) * dy k) n) = true ∧
        getCell s ((x1 : Int) + (c : Int) * dx k).toNat
          ((y1 : Int) + (c : Int) * dy k).toNat = some turn) := by
  intro rem
  induction rem with
  | zero =>
    intro l c hl hc hpos
    rw [← hc] at hpos
    exact absurd hpos (by simp [scanLoop])
  | succ rem ih =>
    intro l c hl hc hpos
    rw [show scanLoop s turn n x1 y1 k l (rem + 1)
        = (if in_range ((x1 : Int) + (l : Int) * dx k) n
            && in_range ((y1 : Int) + (l : Int) * dy k) n then
          match getCell s ((x1 : Int) + (l : Int) * dx k).toNat
              ((y1 : Int) + (l : Int) * dy k).toNat with
          | none => 0
          | some t =>
            if t = turn then l else scanLoop s turn n x1 y1 k (l + 1) rem
        else 0) from rfl] at hc
    by_cases hg : (in_range ((x1 : Int) + (l : Int) * dx k) n
        && in_range ((y1 : Int) + (l : Int) * dy k) n) = true
    · rw [if_pos hg] at hc
      cases hcell : getCell s ((x1 : Int) + (l : Int) * dx k).toNat
          ((y1 : Int) + (l : Int) * dy k).toNat with
      | none =>
        rw [hcell] at hc
        dsimp only at hc
        omega
      | some t =>
        rw [hcell] at hc
        dsimp only at hc
        by_cases ht : t = turn
        · rw [if_pos ht] at hc
          subst hc
          subst ht
          refine ⟨le_rfl, fun l2 h1 h2 => by omega, hg, hcell⟩
        · rw [if_neg ht] at hc
          obtain ⟨hlc, hmid, hterm⟩ := ih (l + 1) c (by omega) hc hpos
          refine ⟨by omega, fun l2 h1 h2 => ?_, hterm⟩
          rcases eq_or_lt_of_le h1 with rfl | hlt
          · exact ⟨hg, t, ht, hcell⟩
          · exact hmid l2 (by omega) h2
    · rw [if_neg hg] at hc
      omega

lemma dirCnt_sound (s : List (List (Option Turn))) (turn : Turn) (n i j k : Nat)
    (c : Nat) (hc : dirCnt s turn n i j k = c) (hpos : 0 < c) :
    (∀ m, 1 ≤ m → m ≤ c →
      (in_range (rayX i k m) n && in_range (rayY j k m) n) = true ∧
      ∃ t, t ≠ turn ∧
        getCell s (rayX i k m).toNat (rayY j k m).toNat = some t) ∧
    ((in_range (rayX i k (c + 1)) n && in_range (rayY j k (c + 1)) n) = true ∧
      getCell s (rayX i k (c + 1)).toNat (rayY j k (c + 1)).toNat
        = some turn) := by
  have h1x : rayX i k 1 = (i : Int) + dx k := by
    unfold rayX
    push_cast
    ring
  have h1y : rayY j k 1 = (j : Int) + dy k := by
    unfold rayY
    push_cast
    ring
  rw [show dirCnt s turn n i j k
      = (if in_range ((i : Int) + dx k) n && in_range ((j : Int) + dy k) n then
        match getCell s ((i : Int) + dx k).toNat ((j : Int) + dy k).toNat with
        | none => 0
        | some t =>
          if t = turn then 0
          else scanLoop s turn n ((i : Int) + dx k).toNat
            ((j : Int) + dy k).toNat k 1 (n - 1)
      else 0) from rfl] at hc
  by_cases hg : (in_range ((i : Int) + dx k) n
      && in_range ((j : Int) + dy k) n) = true
  · rw [if_pos hg] at hc
    cases hcell : getCell s ((i : Int) + dx k).toNat ((j : Int) + dy k).toNat with
    | none =>
      rw [hcell] at hc
      dsimp only at hc
      omega
    | some t =>
      rw [hcell] at hc
      dsimp only at hc
      by_cases ht : t = turn
      · rw [if_pos ht] at hc
        omega
      · rw [if_neg ht] at hc
        have hg2 := hg
        rw [Bool.and_eq_true] at hg2
        have hx0 : (0 : Int) ≤ (i : Int) + dx k :=
          ((in_range_iff _ _).mp hg2.1).1
        have hy0 : (0 : Int) ≤ (j : Int) + dy k :=
          ((in_range_iff _ _).mp hg2.2).1
        have hpx : ∀ l2 : Nat,
            ((((i : Int) + dx k).toNat : Nat) : Int) + (l2 : Int) * dx k
              = rayX i k (l2 + 1) := by
          intro l2
          rw [Int.toNat_of_nonneg hx0]
          unfold rayX
          push_cast
          ring
        have hpy : ∀ l2 : Nat,
            ((((j : Int) + dy k).toNat : Nat) : Int) + (l2 : Int) * dy k
              = rayY j k (l2 + 1) := by
          intro l2
          rw [Int.toNat_of_nonneg hy0]
          unfold rayY
          push_cast
          ring
        obtain ⟨hlc, hmid, hterm⟩ :=
          scanLoop_sound s turn n _ _ k (n - 1) 1 c le_rfl hc hpos
        rw [hpx c, hpy c] at hterm
        constructor
        · intro m hm1 hm2
          rcases eq_or_lt_of_le hm1 with rfl | hm3
          · refine ⟨by rw [h1x, h1y]; exact hg, t, ht, ?_⟩
            rw [h1x, h1y]
            exact hcell
          · have := hmid (m - 1) (by omega) (by omega)
            rw [hpx (m - 1), hpy (m - 1), show m - 1 + 1 = m by omega] at this
            exact this
        · exact hterm
  · rw [if_neg hg] at hc
    omega

lemma flipRun_succ (s : List (List (Option Turn))) (turn : Turn) (i j k l : Nat) :
    flipRun s turn i j k (l + 1) =
      setCell (flipRun s turn i j k l) (rayX i k (l + 1)).toNat
        (rayY j k (l + 1)).toNat (some turn) := by
  unfold flipRun
  rw [List.range_succ, List.foldl_append]
  rfl

lemma Sq_flipRun (s : List (List (Option Turn))) (n : Nat) (turn : Turn)
    (i j k : Nat) : ∀ l, Sq s n → Sq (flipRun s turn i j k l) n := by
  intro l
  induction l with
  | zero => intro h; exact h
  | succ l ih =>
    intro h
    rw [flipRun_succ]
    exact Sq_setCell _ _ _ _ _ (ih h)

lemma getCell_flipRun (s : List (List (Option Turn))) (turn : Turn)
    (n i j k : Nat) (hsq : Sq s n) :
    ∀ l, (∀ m, 1 ≤ m → m ≤ l →
        (in_range (rayX i k m) n && in_range (rayY j k m) n) = true) →
      ∀ x y : Nat,
        getCell (flipRun s turn i j k l) x y =
          if (x, y) ∈ (Finset.Icc 1 l).image
              (fun m => ((rayX i k m).toNat, (rayY j k m).toNat))
          then some turn else getCell s x y := by
  intro l
  induction l with
  | zero =>
    intro hin x y
    rw [if_neg (by simp)]
    rfl
  | succ l ih =>
    intro hin x y
    rw [flipRun_succ]
    have hg := hin (l + 1) (by omega) le_rfl
    rw [Bool.and_eq_true, in_range_iff, in_range_iff] at hg
    obtain ⟨⟨hx0, hxn⟩, hy0, hyn⟩ := hg
    have hsql : Sq (flipRun s turn i j k l) n := Sq_flipRun s n turn i j k l hsq
    have hxN : (rayX i k (l + 1)).toNat < n := by omega
    have hyN : (rayY j k (l + 1)).toNat < n := by omega
    rw [getCell_setCell_sq _ n hsql _ _ hxN hyN,
      ih (fun m h1 h2 => hin m h1 (by omega)) x y]
    by_cases hhit : x = (rayX i k (l + 1)).toNat ∧ y = (rayY j k (l + 1)).toNat
    · have hmem : (x, y) ∈ (Finset.Icc 1 (l + 1)).image
          (fun m => ((rayX i k m).toNat, (rayY j k m).toNat)) :=
        Finset.mem_image.mpr ⟨l + 1, Finset.mem_Icc.mpr ⟨by omega, le_rfl⟩,
          by rw [hhit.1, hhit.2]⟩
      rw [if_pos hhit, if_pos hmem]
    · rw [if_neg hhit]
      by_cases hex : (x, y) ∈ (Finset.Icc 1 l).image
          (fun m => ((rayX i k m).toNat, (rayY j k m).toNat))
      · have hmem : (x, y) ∈ (Finset.Icc 1 (l + 1)).image
            (fun m => ((rayX i k m).toNat, (rayY j k m).toNat)) :=
          Finset.image_subset_image (Finset.Icc_subset_Icc le_rfl (by omega))
            hex
        rw [if_pos hex, if_pos hmem]
      · rw [if_neg hex, if_neg ?hcond]
        case hcond =>
          intro hmem
          obtain ⟨m, hm, hfm⟩ := Finset.mem_image.mp hmem
          rw [Finset.mem_Icc] at hm
          rw [Prod.mk.injEq] at hfm
          by_cases hml : m ≤ l
          · exact hex (Finset.mem_image.mpr ⟨m,
              Finset.mem_Icc.mpr ⟨hm.1, hml⟩, by rw [hfm.1, hfm.2]⟩)
          · have hmeq : m = l + 1 := by omega
            subst hmeq
            exact hhit ⟨hfm.1.symm, hfm.2.symm⟩

lemma Sq_putDir (s : List (List (Option Turn))) (n : Nat) (turn : Turn)
    (i j k : Nat) (h : Sq s n) : Sq (putDir s turn n i j k) n := by
  rw [putDir_eq]
  by_cases hz : dirCnt s turn n i j k = 0
  · rw [if_pos hz]
    exact h
  · rw [if_neg hz]
    exact Sq_flipRun s n turn i j k _ h

lemma Sq_foldl_putDir (turn : Turn) (n i j : Nat) :
    ∀ (ks : List Nat) (s : List (List (Option Turn))), Sq s n →
      Sq (ks.foldl (fun s2 k => putDir s2 turn n i j k) s) n := by
  intro ks
  induction ks with
  | nil => intro s h; exact h
  | cons k ks ih =>
    intro s h
    exact ih _ (Sq_putDir s n turn i j k h)

lemma put_fold_cell (b : BoardState) (hwf : WF b) (i j : Nat)
    (hi : i < b.size) (hj : j < b.size) :
    ∀ r, r ≤ 8 → ∀ x y : Nat,
      getCell ((List.range r).foldl
        (fun s k => putDir s b.turn b.size i j k)
        (setCell b.state i j (some b.turn))) x y =
        (if x = i ∧ y = j then some b.turn
        else if (x, y) ∈ (Finset.range r).biUnion (fun k =>
            (Finset.Icc 1 (dirCnt b.state b.turn b.size i j k)).image
              (fun m => ((rayX i k m).toNat, (rayY j k m).toNat)))
        then some b.turn
        else getCell b.state x y) := by
  intro r
  induction r with
  | zero =>
    intro _ x y
    rw [List.range_zero]
    show getCell (setCell b.state i j (some b.turn)) x y = _
    rw [getCell_setCell_sq b.state b.size hwf i j hi hj]
    by_cases h0 : x = i ∧ y = j
    · rw [if_pos h0, if_pos h0]
    · rw [if_neg h0, if_neg h0, if_neg (by simp)]
  | succ r ih =>
    intro hr8 x y
    have hk8 : r < 8 := by omega
    rw [List.range_succ, List.foldl_append]
    have hsq0 : Sq (setCell b.state i j (some b.turn)) b.size :=
      Sq_setCell b.state b.size i j (some b.turn) hwf
    have hsqr : Sq ((List.range r).foldl
        (fun s k => putDir s b.turn b.size i j k)
        (setCell b.state i j (some b.turn))) b.size :=
      Sq_foldl_putDir b.turn b.size i j (List.range r) _ hsq0
    -- the scan along ray `r` sees the original grid
    have hagree : ∀ m : Nat, 1 ≤ m →
        (in_range (rayX i r m) b.size && in_range (rayY j r m) b.size) = true →
        getCell ((List.range r).foldl
          (fun s k => putDir s b.turn b.size i j k)
          (setCell b.state i j (some b.turn)))
          (rayX i r m).toNat (rayY j r m).toNat
        = getCell b.state (rayX i r m).toNat (rayY j r m).toNat := by
      intro m hm hgm
      rw [Bool.and_eq_true, in_range_iff, in_range_iff] at hgm
      obtain ⟨⟨hx0, hxn⟩, hy0, hyn⟩ := hgm
      rw [ih (by omega) (rayX i r m).toNat (rayY j r m).toNat]
      rw [if_neg ?horig, if_neg ?hray]
      case horig =>
        rintro ⟨hx, hy⟩
        refine ray_ne_origin i j r m hk8 hm ⟨?_, ?_⟩ <;> omega
      case hray =>
        intro hmem
        obtain ⟨k, hk, hmem2⟩ := Finset.mem_biUnion.mp hmem
        rw [Finset.mem_range] at hk
        obtain ⟨m2, hm2, hfm⟩ := Finset.mem_image.mp hmem2
        rw [Finset.mem_Icc] at hm2
        rw [Prod.mk.injEq] at hfm
        have hpos2 : 0 < dirCnt b.state b.turn b.size i j k := by omega
        obtain ⟨hmid, -⟩ := dirCnt_sound b.state b.turn b.size i j k _ rfl hpos2
        obtain ⟨hg2, -⟩ := hmid m2 hm2.1 hm2.2
        rw [Bool.and_eq_true, in_range_iff, in_range_iff] at hg2
        obtain ⟨⟨hx02, -⟩, hy02, -⟩ := hg2
        refine ray_disjoint i j k r m2 m (by omega) hk8 (by omega) hm2.1 hm
          ⟨?_, ?_⟩
        · omega
        · omega
    have hscan : dirCnt ((List.range r).foldl
        (fun s k => putDir s b.turn b.size i j k)
        (setCell b.state i j (some b.turn))) b.turn b.size i j r
        = dirCnt b.state b.turn b.size i j r :=
      dirCnt_congr _ b.state b.turn b.size i j r hagree
    show getCell (putDir _ b.turn b.size i j r) x y = _
    rw [putDir_eq, hscan]
    by_cases hz : dirCnt b.state b.turn b.size i j r = 0
    · rw [if_pos hz, ih (by omega) x y]
      by_cases h0 : x = i ∧ y = j
      · rw [if_pos h0, if_pos h0]
      · rw [if_neg h0, if_neg h0]
        have hrw : ((x, y) ∈ (Finset.range (r + 1)).biUnion (fun k =>
            (Finset.Icc 1 (dirCnt b.state b.turn b.size i j k)).image
              (fun m => ((rayX i k m).toNat, (rayY j k m).toNat))))
            = ((x, y) ∈ (Finset.range r).biUnion (fun k =>
            (Finset.Icc 1 (dirCnt b.state b.turn b.size i j k)).image
              (fun m => ((rayX i k m).toNat, (rayY j k m).toNat)))) := by
          rw [Finset.range_succ, Finset.biUnion_insert, hz]
          rw [show Finset.Icc 1 0 = (∅ : Finset Nat) from rfl,
            Finset.image_empty, Finset.empty_union]
        by_cases hm : (x, y) ∈ (Finset.range r).biUnion (fun k =>
            (Finset.Icc 1 (dirCnt b.state b.turn b.size i j k)).image
              (fun m => ((rayX i k m).toNat, (rayY j k m).toNat)))
        · rw [if_pos hm, if_pos (by rw [hrw]; exact hm)]
        · rw [if_neg hm, if_neg (by rw [hrw]; exact hm)]
    · rw [if_neg hz]
      have hposr : 0 < dirCnt b.state b.turn b.size i j r := by omega
      obtain ⟨hmidr, -⟩ :=
        dirCnt_sound b.state b.turn b.size i j r _ rfl hposr
      rw [getCell_flipRun _ b.turn b.size i j r hsqr _
        (fun m h1 h2 => (hmidr m h1 h2).1) x y]
      by_cases hhit : (x, y) ∈ (Finset.Icc 1
          (dirCnt b.state b.turn b.size i j r)).image
          (fun m => ((rayX i r m).toNat, (rayY j r m).toNat))
      · rw [if_pos hhit]
        have hne0 : ¬(x = i ∧ y = j) := by
          rintro ⟨rfl, rfl⟩
          obtain ⟨m, hm, hfm⟩ := Finset.mem_image.mp hhit
          rw [Finset.mem_Icc] at hm
          rw [Prod.mk.injEq] at hfm
          obtain ⟨hg2, -⟩ := hmidr m hm.1 hm.2
          rw [Bool.and_eq_true, in_range_iff, in_range_iff] at hg2
          obtain ⟨⟨hx02, -⟩, hy02, -⟩ := hg2
          refine ray_ne_origin x y r m hk8 hm.1 ⟨?_, ?_⟩ <;> omega
        rw [if_neg hne0, if_pos ?hmem]
        case hmem =>
          refine Finset.mem_biUnion.mpr ⟨r, ?_, hhit⟩
          rw [Finset.mem_range]
          omega
      · rw [if_neg hhit, ih (by omega) x y]
        by_cases h0 : x = i ∧ y = j
        · rw [if_pos h0, if_pos h0]
        · rw [if_neg h0, if_neg h0]
          by_cases hm : (x, y) ∈ (Finset.range r).biUnion (fun k =>
              (Finset.Icc 1 (dirCnt b.state b.turn b.size i j k)).image
                (fun m => ((rayX i k m).toNat, (rayY j k m).toNat)))
          · rw [if_pos hm, if_pos ?hmem2]
            case hmem2 =>
              obtain ⟨k, hk, hmem2⟩ := Finset.mem_biUnion.mp hm
              rw [Finset.mem_range] at hk
              refine Finset.mem_biUnion.mpr ⟨k, ?_, hmem2⟩
              rw [Finset.mem_range]
              omega
          · rw [if_neg hm, if_neg ?hmem3]
            case hmem3 =>
              intro hc
              obtain ⟨k, hk, hmem2⟩ := Finset.mem_biUnion.mp hc
              rw [Finset.mem_range] at hk
              by_cases hkr : k < r
              · exact hm (Finset.mem_biUnion.mpr ⟨k,
                  Finset.mem_range.mpr hkr, hmem2⟩)
              · have : k = r := by omega
                subst this
                exact hhit hmem2

lemma cntEntry_eq (b : BoardState) (i j : Nat) (hi : i < b.size)
    (hj : j < b.size) :
    cntEntry b i j =
      (match getCell b.state i j with
      | some _ => 0
      | none =>
        ((List.range 8).map
          (fun k => dirCnt b.state b.turn b.size i j k)).sum) := by
  unfold cntEntry
  simp only [cnt_reversable]
  rw [getD_map_range _ b.size i [] hi, getD_map_range _ b.size j 0 hj]

lemma cnt_pos_empty (b : BoardState) (i j : Nat) (hi : i < b.size)
    (hj : j < b.size) (hc : 0 < cntEntry b i j) :
    getCell b.state i j = none := by
  cases hcc : getCell b.state i j with
  | none => rfl
  | some t =>
    rw [cntEntry_eq b i j hi hj, hcc] at hc
    exact absurd hc (by simp)

lemma raySet_card (b : BoardState) (i j : Nat) (hi : i < b.size)
    (hj : j < b.size) (hempty : getCell b.state i j = none) :
    (raySet b.state b.turn b.size i j).card = cntEntry b i j := by
  rw [cntEntry_eq b i j hi hj, hempty]
  dsimp only
  rw [list_range_map_sum]
  unfold raySet
  rw [Finset.card_biUnion ?hdisj]
  case hdisj =>
    intro k1 hk1 k2 hk2 hne
    rw [Finset.mem_range] at hk1 hk2
    rw [Finset.disjoint_left]
    rintro ⟨x, y⟩ hm1 hm2
    obtain ⟨m1, hmm1, hf1⟩ := Finset.mem_image.mp hm1
    obtain ⟨m2, hmm2, hf2⟩ := Finset.mem_image.mp hm2
    rw [Finset.mem_Icc] at hmm1 hmm2
    rw [Prod.mk.injEq] at hf1 hf2
    obtain ⟨hmid1, -⟩ := dirCnt_sound b.state b.turn b.size i j k1 _ rfl
      (by omega)
    obtain ⟨hmid2, -⟩ := dirCnt_sound b.state b.turn b.size i j k2 _ rfl
      (by omega)
    obtain ⟨hg1, -⟩ := hmid1 m1 hmm1.1 hmm1.2
    obtain ⟨hg2, -⟩ := hmid2 m2 hmm2.1 hmm2.2
    rw [Bool.and_eq_true, in_range_iff, in_range_iff] at hg1 hg2
    obtain ⟨⟨ha1, -⟩, hb1, -⟩ := hg1
    obtain ⟨⟨ha2, -⟩, hb2, -⟩ := hg2
    refine ray_disjoint i j k1 k2 m1 m2 hk1 hk2 hne hmm1.1 hmm2.1 ⟨?_, ?_⟩
    · omega
    · omega
  refine Finset.sum_congr rfl fun k hk => ?_
  rw [Finset.mem_range] at hk
  rw [Finset.card_image_of_injOn ?hinj, Nat.card_Icc]
  · omega
  case hinj =>
    intro m1 hmm1 m2 hmm2 heq
    rw [Finset.coe_Icc, Set.mem_Icc] at hmm1 hmm2
    rw [Prod.mk.injEq] at heq
    obtain ⟨hmid, -⟩ := dirCnt_sound b.state b.turn b.size i j k _ rfl
      (by omega)
    obtain ⟨hg1, -⟩ := hmid m1 hmm1.1 hmm1.2
    obtain ⟨hg2, -⟩ := hmid m2 hmm2.1 hmm2.2
    rw [Bool.and_eq_true, in_range_iff, in_range_iff] at hg1 hg2
    obtain ⟨⟨ha1, -⟩, hb1, -⟩ := hg1
    obtain ⟨⟨ha2, -⟩, hb2, -⟩ := hg2
    refine ray_inj i j k m1 m2 hk ⟨?_, ?_⟩
    · omega
    · omega

lemma put_ok_inv (b : BoardState) (i j : Nat) (b2 : BoardState) (r : Bool)
    (h : put b i j = Except.ok (b2, r)) :
    i < b.size ∧ j < b.size ∧ 0 < cntEntry b i j ∧ b2.size = b.size ∧
      b2.state = (List.range 8).foldl
        (fun s k => putDir s b.turn b.size i j k)
        (setCell b.state i j (some b.turn)) := by
  by_cases hij : i < b.size ∧ j < b.size
  case neg =>
    rw [put_oob b i j hij] at h
    exact absurd h (by simp)
  by_cases hc : 0 < ((cnt_reversable b).getD i []).getD j 0
  case neg =>
    rw [put_zerocnt b i j hij hc] at h
    exact absurd h (by simp)
  rw [put_ok_eq b i j hij hc] at h
  have hstate : b2.size = b.size ∧ b2.state = (List.range 8).foldl
      (fun s k => putDir s b.turn b.size i j k)
      (setCell b.state i j (some b.turn)) := by
    split_ifs at h <;>
    · rw [Except.ok.injEq, Prod.mk.injEq] at h
      obtain ⟨hb2, -⟩ := h
      rw [← hb2]
      exact ⟨rfl, rfl⟩
  exact ⟨hij.1, hij.2, hc, hstate.1, hstate.2⟩

lemma put_cell_char (b : BoardState) (hwf : WF b) (i j : Nat)
    (b2 : BoardState) (r : Bool) (h : put b i j = Except.ok (b2, r)) :
    ∀ x y : Nat, getCell b2.state x y =
      (if x = i ∧ y = j then some b.turn
      else if (x, y) ∈ raySet b.state b.turn b.size i j then some b.turn
      else getCell b.state x y) := by
  obtain ⟨hi, hj, hc, hsize, hstate⟩ := put_ok_inv b i j b2 r h
  intro x y
  rw [hstate]
  exact put_fold_cell b hwf i j hi hj 8 le_rfl x y

/-- C3: a successful `put` at `(i,j)` recolors, in each direction `k`
with capture length `l`, exactly the `l` opposing discs at offsets
`1..l` along that direction to the mover's color, changes no other cell
besides `(i,j)` itself, and in total exactly `cnt_reversable()[i][j]`
discs change color. -/
theorem put_flips_exactly (b : BoardState) (hwf : WF b) (i j : Nat)
    (b2 : BoardState) (r : Bool) (h : put b i j = Except.ok (b2, r)) :
    getCell b2.state i j = some b.turn ∧
    (∀ k, k < 8 → ∀ m, 1 ≤ m → m ≤ dirCnt b.state b.turn b.size i j k →
      getCell b2.state (rayX i k m).toNat (rayY j k m).toNat = some b.turn ∧
      ∃ t, t ≠ b.turn ∧
        getCell b.state (rayX i k m).toNat (rayY j k m).toNat = some t) ∧
    (∀ x y : Nat, ¬(x = i ∧ y = j) →
      (x, y) ∉ raySet b.state b.turn b.size i j →
      getCell b2.state x y = getCell b.state x y) ∧
    (changedDiscs b.state b2.state b.size).card = cntEntry b i j := by
  obtain ⟨hi, hj, hc, hsize, hstate⟩ := put_ok_inv b i j b2 r h
  have hcell8 := put_cell_char b hwf i j b2 r h
  have hempty : getCell b.state i j = none := cnt_pos_empty b i j hi hj hc
  refine ⟨?_, ?_, ?_, ?_⟩
  · rw [hcell8 i j, if_pos ⟨rfl, rfl⟩]
  · intro k hk m hm1 hm2
    obtain ⟨hmid, -⟩ := dirCnt_sound b.state b.turn b.size i j k _ rfl
      (by omega)
    obtain ⟨hg, ht⟩ := hmid m hm1 hm2
    rw [Bool.and_eq_true, in_range_iff, in_range_iff] at hg
    obtain ⟨⟨hx0, -⟩, hy0, -⟩ := hg
    refine ⟨?_, ht⟩
    rw [hcell8, if_neg ?ho, if_pos ?hm]
    case ho =>
      rintro ⟨hx, hy⟩
      exact ray_ne_origin i j k m hk hm1 ⟨by omega, by omega⟩
    case hm =>
      unfold raySet
      exact Finset.mem_biUnion.mpr ⟨k, Finset.mem_range.mpr hk,
        Finset.mem_image.mpr ⟨m, Finset.mem_Icc.mpr ⟨hm1, hm2⟩, rfl⟩⟩
  · intro x y h0 hmem
    rw [hcell8 x y, if_neg h0, if_neg hmem]
  · have hset : changedDiscs b.state b2.state b.size
        = raySet b.state b.turn b.size i j := by
      apply Finset.ext
      rintro ⟨x, y⟩
      unfold changedDiscs
      rw [Finset.mem_filter, Finset.mem_product, Finset.mem_range,
        Finset.mem_range]
      constructor
      · rintro ⟨⟨hx, hy⟩, hbne, hb2ne, hneq⟩
        by_cases h0 : x = i ∧ y = j
        · obtain ⟨rfl, rfl⟩ := h0
          exact absurd hempty hbne
        · by_cases hmem : (x, y) ∈ raySet b.state b.turn b.size i j
          · exact hmem
          · rw [hcell8 x y, if_neg h0, if_neg hmem] at hneq
            exact absurd rfl hneq
      · intro hmem
        have hmem2 := hmem
        unfold raySet at hmem2
        obtain ⟨k, hk, hmem3⟩ := Finset.mem_biUnion.mp hmem2
        rw [Finset.mem_range] at hk
        obtain ⟨m, hmI, hfm⟩ := Finset.mem_image.mp hmem3
        rw [Finset.mem_Icc] at hmI
        rw [Prod.mk.injEq] at hfm
        obtain ⟨hfx, hfy⟩ := hfm
        subst hfx
        subst hfy
        obtain ⟨hmid, -⟩ := dirCnt_sound b.state b.turn b.size i j k _ rfl
          (by omega)
        obtain ⟨hg, t, htne, hcellb⟩ := hmid m hmI.1 hmI.2
        rw [Bool.and_eq_true, in_range_iff, in_range_iff] at hg
        obtain ⟨⟨hx0, hxn⟩, hy0, hyn⟩ := hg
        have ho : ¬((rayX i k m).toNat = i ∧ (rayY j k m).toNat = j) := by
          rintro ⟨h1, h2⟩
          exact ray_ne_origin i j k m hk hmI.1 ⟨by omega, by omega⟩
        have hafter : getCell b2.state (rayX i k m).toNat (rayY j k m).toNat
            = some b.turn := by
          rw [hcell8, if_neg ho, if_pos hmem]
        refine ⟨⟨by omega, by omega⟩, by rw [hcellb]; simp,
          by rw [hafter]; simp, ?_⟩
        rw [hcellb, hafter]
        simp [htne]
    rw [hset, raySet_card b i j hi hj hempty]

theorem put_flips_exactly_witness :
    getCell board8After.state 3 2 = some board8B.turn ∧
    (∀ k, k < 8 → ∀ m, 1 ≤ m →
        m ≤ dirCnt board8B.state board8B.turn board8B.size 3 2 k →
      getCell board8After.state (rayX 3 k m).toNat (rayY 2 k m).toNat
          = some board8B.turn ∧
      ∃ t, t ≠ board8B.turn ∧
        getCell board8B.state (rayX 3 k m).toNat (rayY 2 k m).toNat
          = some t) ∧
    (∀ x y : Nat, ¬(x = 3 ∧ y = 2) →
      (x, y) ∉ raySet board8B.state board8B.turn board8B.size 3 2 →
      getCell board8After.state x y = getCell board8B.state x y) ∧
    (changedDiscs board8B.state board8After.state board8B.size).card
      = cntEntry board8B 3 2 :=
  put_flips_exactly board8B ⟨by decide, by decide⟩ 3 2 board8After true
    (by decide)

lemma count_total (b : BoardState) :
    (count_pieces b).1.2 + (count_pieces b).2.2 =
      ((Finset.range b.size ×ˢ Finset.range b.size).filter
        (fun q => getCell b.state q.1 q.2 ≠ none)).card := by
  rw [count_pieces_eq_card]
  dsimp only
  rw [← Finset.card_union_of_disjoint ?hd]
  case hd =>
    rw [Finset.disjoint_left]
    intro q h1 h2
    rw [Finset.mem_filter] at h1 h2
    rw [h1.2] at h2
    exact absurd h2.2 (by simp)
  congr 1
  rw [← Finset.filter_or]
  refine Finset.filter_congr fun q hq => ?_
  cases hcq : getCell b.state q.1 q.2 with
  | none => simp [hcq]
  | some t => cases t <;> simp [hcq]

/-- C4: a successful `put` adds exactly the placed cell to the occupied
set — the placed cell was empty and becomes occupied, no occupied cell
ever becomes empty, a cell is occupied afterwards exactly when it was
occupied before or is the placed cell, the dimension is unchanged, and
the total number of occupied cells grows by exactly one. -/
theorem put_occupancy (b : BoardState) (hwf : WF b) (i j : Nat)
    (b2 : BoardState) (r : Bool) (h : put b i j = Except.ok (b2, r)) :
    b2.size = b.size ∧
    getCell b.state i j = none ∧
    (∀ x y : Nat, getCell b.state x y ≠ none → getCell b2.state x y ≠ none) ∧
    (∀ x y : Nat, x < b.size → y < b.size →
      (getCell b2.state x y ≠ none ↔
        (getCell b.state x y ≠ none ∨ (x = i ∧ y = j)))) ∧
    (count_pieces b2).1.2 + (count_pieces b2).2.2
      = (count_pieces b).1.2 + (count_pieces b).2.2 + 1 := by
  obtain ⟨hi, hj, hc, hsize, hstate⟩ := put_ok_inv b i j b2 r h
  have hcell8 := put_cell_char b hwf i j b2 r h
  have hempty : getCell b.state i j = none := cnt_pos_empty b i j hi hj hc
  have hiff : ∀ x y : Nat,
      (getCell b2.state x y ≠ none ↔
        (getCell b.state x y ≠ none ∨ (x = i ∧ y = j))) := by
    intro x y
    rw [hcell8 x y]
    by_cases h0 : x = i ∧ y = j
    · rw [if_pos h0]
      simp [h0]
    · rw [if_neg h0]
      by_cases hmem : (x, y) ∈ raySet b.state b.turn b.size i j
      · rw [if_pos hmem]
        have hmem2 := hmem
        unfold raySet at hmem2
        obtain ⟨k, hk, hmem3⟩ := Finset.mem_biUnion.mp hmem2
        rw [Finset.mem_range] at hk
        obtain ⟨m, hmI, hfm⟩ := Finset.mem_image.mp hmem3
        rw [Finset.mem_Icc] at hmI
        rw [Prod.mk.injEq] at hfm
        obtain ⟨hfx, hfy⟩ := hfm
        subst hfx
        subst hfy
        obtain ⟨hmid, -⟩ := dirCnt_sound b.state b.turn b.size i j k _ rfl
          (by omega)
        obtain ⟨-, t, -, hcellb⟩ := hmid m hmI.1 hmI.2
        rw [hcellb]
        simp
      · rw [if_neg hmem]
        simp [h0]
  refine ⟨hsize, hempty, ?_, fun x y _ _ => hiff x y, ?_⟩
  · intro x y hne
    exact (hiff x y).mpr (Or.inl hne)
  · rw [count_total b2, count_total b, hsize]
    have hins : ((Finset.range b.size ×ˢ Finset.range b.size).filter
        (fun q => getCell b2.state q.1 q.2 ≠ none))
        = insert (i, j) ((Finset.range b.size ×ˢ Finset.range b.size).filter
          (fun q => getCell b.state q.1 q.2 ≠ none)) := by
      apply Finset.ext
      rintro ⟨x, y⟩
      rw [Finset.mem_insert, Finset.mem_filter, Finset.mem_filter,
        Finset.mem_product, Finset.mem_range, Finset.mem_range,
        Prod.mk.injEq]
      dsimp only
      constructor
      · rintro ⟨⟨hx, hy⟩, hne⟩
        rcases (hiff x y).mp hne with hb | ⟨rfl, rfl⟩
        · exact Or.inr ⟨⟨hx, hy⟩, hb⟩
        · exact Or.inl ⟨rfl, rfl⟩
      · rintro (⟨rfl, rfl⟩ | ⟨⟨hx, hy⟩, hb⟩)
        · exact ⟨⟨hi, hj⟩, (hiff x y).mpr (Or.inr ⟨rfl, rfl⟩)⟩
        · exact ⟨⟨hx, hy⟩, (hiff x y).mpr (Or.inl hb)⟩
    rw [hins, Finset.card_insert_of_not_mem ?hnm]
    case hnm =>
      rw [Finset.mem_filter]
      rintro ⟨-, hne⟩
      exact hne hempty

theorem put_occupancy_witness :
    board8After.size = board8B.size ∧
    getCell board8B.state 3 2 = none ∧
    (∀ x y : Nat, getCell board8B.state x y ≠ none →
      getCell board8After.state x y ≠ none) ∧
    (∀ x y : Nat, x < board8B.size → y < board8B.size →
      (getCell board8After.state x y ≠ none ↔
        (getCell board8B.state x y ≠ none ∨ (x = 3 ∧ y = 2)))) ∧
    (count_pieces board8After).1.2 + (count_pieces board8After).2.2
      = (count_pieces board8B).1.2 + (count_pieces board8B).2.2 + 1 :=
  put_occupancy board8B ⟨by decide, by decide⟩ 3 2 board8After true
    (by decide)
